import Mathlib

/-!
Verification of the battleship placement engine in `src/battlefield.py`.

The engine precomputes, per ship kind, the set of all candidate footprints
(sets of board cells), together with a cached buffer footprint
(all in-bounds cells at Chebyshev distance at most 1) for every candidate.
`place_battleship` picks a footprint from the current pool, marks its cells
on the board and prunes, from every pool, each footprint meeting the buffer
of the placed piece.

Python footprints are `frozenset`s of `(row, col)` integer pairs; they are
modelled as `Finset (ℤ × ℤ)` so that equality is set equality.  The mutable
engine object is modelled as a `Battlefield` record, mutation as functional
update.  The `random.choice` call is modelled by an explicit choice function
`choose : Finset Piece → Piece` supplied by the caller; a run of the engine
constrains it to return a member of the pool it is applied to, exactly as
`random.choice` does.  A Python `KeyError` on the buffer-cache lookup is
modelled by an `Option` layer: `place_battleship` returns `none` where the
Python code would raise, and `some (none, bf)` for the normal "no space
available" result `None`.
-/

abbrev Cell : Type := ℤ × ℤ

abbrev Piece : Type := Finset Cell

/-- The keys of the Python `BATTLESHIPS` dict: the four ship kinds,
identified in the source by their one-character symbols. -/
inductive ShipType : Type where
  | submarine
  | destroyer
  | cruiser
  | carrier
deriving DecidableEq, Fintype

/-- `BATTLESHIPS = {'S': (1, 1), 'D': (2, 1), 'C': (3, 1), 'A': (4, 1)}`:
the dimensions of each ship kind. -/
def BATTLESHIPS (t : ShipType) : ℕ × ℕ :=
  match t with
  | .submarine => (1, 1)
  | .destroyer => (2, 1)
  | .cruiser => (3, 1)
  | .carrier => (4, 1)

/-- The one-character symbol stored in the board for each kind (in the
source the dict key `battleship_type` itself is written into the board). -/
def symbol (t : ShipType) : Char :=
  match t with
  | .submarine => 'S'
  | .destroyer => 'D'
  | .cruiser => 'C'
  | .carrier => 'A'

/-- Chebyshev distance between two cells (used to state the spec's
no-touching invariant). -/
def cheb (a b : Cell) : ℕ :=
  max (a.1 - b.1).natAbs (a.2 - b.2).natAbs

/-- The single footprint anchored at `(row, col)` with extents
`x_size × y_size`:
`frozenset([(x_pos, y_pos) for x_pos in range(row, row + x_size)
                           for y_pos in range(col, col + y_size)])`. -/
def piece_at (row col : ℤ) (x_size y_size : ℕ) : Piece :=
  (Finset.range x_size ×ˢ Finset.range y_size).image
    (fun ij => (row + (ij.1 : ℤ), col + (ij.2 : ℤ)))

/-- `Battlefield.__get_battleship_type_pieces`: all footprints of a given
oriented dimension that fit on the `n × m` grid.  Python's
`range(self.n - x_size + 1)` is empty when `n - x_size + 1 ≤ 0`, which is
exactly `Finset.range (n + 1 - x_size)` under truncated ℕ subtraction. -/
def get_battleship_type_pieces (n m : ℕ) (dimension : ℕ × ℕ) : Finset Piece :=
  (Finset.range (n + 1 - dimension.1) ×ˢ Finset.range (m + 1 - dimension.2)).image
    (fun rc => piece_at (rc.1 : ℤ) (rc.2 : ℤ) dimension.1 dimension.2)

/-- `Battlefield.__generate_battleship_locations`, per ship kind: the base
orientation, united with the swapped orientation when the two extents
differ. -/
def generate_battleship_locations (n m : ℕ) (t : ShipType) : Finset Piece :=
  let dimension := BATTLESHIPS t
  if dimension.1 ≠ dimension.2 then
    get_battleship_type_pieces n m dimension ∪
      get_battleship_type_pieces n m (dimension.2, dimension.1)
  else
    get_battleship_type_pieces n m dimension

/-- The nine offsets `(x_delta, y_delta)` with each component in
`(-1, 0, 1)`. -/
def deltas : Finset ℤ := {-1, 0, 1}

/-- `Battlefield.__generate_buffered_piece`: every in-bounds cell obtained
from a cell of the piece by an offset of at most one in each coordinate. -/
def generate_buffered_piece (n m : ℕ) (piece : Piece) : Finset Cell :=
  piece.biUnion (fun pos =>
    ((deltas ×ˢ deltas).filter (fun d =>
        0 ≤ pos.1 + d.1 ∧ pos.1 + d.1 < (n : ℤ) ∧
        0 ≤ pos.2 + d.2 ∧ pos.2 + d.2 < (m : ℤ))).image
      (fun d => (pos.1 + d.1, pos.2 + d.2)))

/-- The key set of the dict built by
`Battlefield.__generate_battleship_with_buffer`: every piece of every
kind's initial pool.  The dict's value at a key `piece` is always
`__generate_buffered_piece(piece)`, a pure function of the key, so the
cache is modelled by its key set together with that function. -/
def buffered_cache_keys (n m : ℕ) : Finset Piece :=
  Finset.univ.biUnion (fun t => generate_battleship_locations n m t)

/-- The engine state: grid dimensions, the board matrix (a cell-indexed
map to the occupying symbol, `none` for an empty cell), the per-kind pools
of free pieces, and the key set of the buffer cache. -/
structure Battlefield : Type where
  n : ℕ
  m : ℕ
  board : Cell → Option Char
  free_battleship_pieces : ShipType → Finset Piece
  buffered_keys : Finset Piece

/-- `Battlefield.__init__`: an all-empty board and the precomputed pools
and buffer cache.  The source performs no validation of `n` or `m`. -/
def Battlefield.init (n m : ℕ) : Battlefield where
  n := n
  m := m
  board := fun _ => none
  free_battleship_pieces := fun t => generate_battleship_locations n m t
  buffered_keys := buffered_cache_keys n m

/-- `Battlefield.__place_in_board`: write the symbol into every cell of the
piece; all other cells keep their value. -/
def place_in_board (bf : Battlefield) (piece : Piece) (piece_symbol : Char) :
    Battlefield :=
  { bf with board := fun pos => if pos ∈ piece then some piece_symbol else bf.board pos }

/-- `Battlefield.__remove_overlapping_free_locations`: look the placed
piece up in the buffer cache (`none` models the `KeyError` a missing key
would raise) and discard, from every kind's pool, each free piece sharing
a cell with the buffered piece. -/
def remove_overlapping_free_locations (bf : Battlefield) (piece : Piece) :
    Option Battlefield :=
  if piece ∈ bf.buffered_keys then
    some { bf with
      free_battleship_pieces := fun t =>
        (bf.free_battleship_pieces t).filter
          (fun free_piece => free_piece ∩ generate_buffered_piece bf.n bf.m piece = ∅) }
  else
    none

/-- `Battlefield.place_battleship`: `some (none, bf)` models the Python
`return None` on an empty pool (state untouched); otherwise the chosen
piece is written to the board and the pools are pruned.  An outer `none`
models an uncaught exception. -/
def place_battleship (bf : Battlefield) (t : ShipType)
    (choose : Finset Piece → Piece) : Option (Option Piece × Battlefield) :=
  if bf.free_battleship_pieces t = ∅ then
    some (none, bf)
  else
    match remove_overlapping_free_locations
        (place_in_board bf (choose (bf.free_battleship_pieces t)) (symbol t))
        (choose (bf.free_battleship_pieces t)) with
    | none => none
    | some bf2 => some (some (choose (bf.free_battleship_pieces t)), bf2)

/-- Two footprints are separated when every cell of one is at Chebyshev
distance at least 2 from every cell of the other. -/
def Separated (A B : Piece) : Prop :=
  ∀ a ∈ A, ∀ b ∈ B, 2 ≤ cheb a b

/-- Reachable engine states, with the (ghost) list of committed footprints.
A step is a successful `place_battleship` call whose choice function,
like `random.choice`, returns a member of the pool it is given; a call
returning the "no space" value leaves the state unchanged, so such calls
do not extend the reachable-state set. -/
inductive Exec : Battlefield → List Piece → Prop where
  | init (n m : ℕ) : Exec (Battlefield.init n m) []
  | step (bf : Battlefield) (L : List Piece) (t : ShipType)
      (choose : Finset Piece → Piece) (p : Piece) (bf' : Battlefield) :
      Exec bf L →
      choose (bf.free_battleship_pieces t) ∈ bf.free_battleship_pieces t →
      place_battleship bf t choose = some (some p, bf') →
      Exec bf' (p :: L)

/-- The engine invariant tied to the committed list `L`: the cache keys are
the construction-time ones, every pool is exactly the initial pool filtered
by disjointness from the buffers of all committed pieces, and the committed
pieces are pairwise separated. -/
def EngineInv (bf : Battlefield) (L : List Piece) : Prop :=
  bf.buffered_keys = buffered_cache_keys bf.n bf.m ∧
  (∀ t, bf.free_battleship_pieces t =
    (generate_battleship_locations bf.n bf.m t).filter
      (fun fp => ∀ q ∈ L, fp ∩ generate_buffered_piece bf.n bf.m q = ∅)) ∧
  L.Pairwise Separated

/-- The sole footprint available on a 1 × 1 grid. -/
def origin_piece : Piece := {((0 : ℤ), (0 : ℤ))}

/-- A concrete choice function, standing in for `random.choice` in the
concrete scenarios below. -/
def const_choice : Finset Piece → Piece := fun _ => origin_piece

/-- The engine state after placing the submarine on a 1 × 1 grid. -/
def after_first_submarine : Battlefield :=
  match place_battleship (Battlefield.init 1 1) ShipType.submarine const_choice with
  | some (some _, bf) => bf
  | _ => Battlefield.init 1 1

/-- The only submarine footprint of a 3 × 1 grid not pruned by a
submarine at the origin. -/
def far_piece : Piece := {((2 : ℤ), (0 : ℤ))}

/-- A choice function standing in for `random.choice` picking
`far_piece`. -/
def far_choice : Finset Piece → Piece := fun _ => far_piece

/-- The engine state after placing a submarine at the origin of a
3 × 1 grid. -/
def after_sub_three_one : Battlefield :=
  match place_battleship (Battlefield.init 3 1) ShipType.submarine const_choice with
  | some (some _, bf) => bf
  | _ => Battlefield.init 3 1

/-- The engine state after then placing a second submarine at `(2, 0)`. -/
def after_two_subs_three_one : Battlefield :=
  match place_battleship after_sub_three_one ShipType.submarine far_choice with
  | some (some _, bf) => bf
  | _ => after_sub_three_one

/-! ### Basic lemmas about footprint generation -/

lemma mem_piece_at (row col : ℤ) (x_size y_size : ℕ) (a : Cell) :
    a ∈ piece_at row col x_size y_size ↔
      ∃ i j : ℕ, i < x_size ∧ j < y_size ∧ a = (row + (i : ℤ), col + (j : ℤ)) := by
  simp only [piece_at, Finset.mem_image, Finset.mem_product, Finset.mem_range]
  constructor
  · rintro ⟨⟨i, j⟩, ⟨hi, hj⟩, h⟩
    exact ⟨i, j, hi, hj, h.symm⟩
  · rintro ⟨i, j, hi, hj, h⟩
    exact ⟨⟨i, j⟩, ⟨hi, hj⟩, h.symm⟩

lemma anchor_mem_piece_at (row col : ℤ) (x_size y_size : ℕ)
    (hx : 0 < x_size) (hy : 0 < y_size) :
    (row, col) ∈ piece_at row col x_size y_size := by
  rw [mem_piece_at]
  exact ⟨0, 0, hx, hy, by simp⟩

lemma piece_at_inj (r1 c1 r2 c2 : ℤ) (x_size y_size : ℕ)
    (hx : 0 < x_size) (hy : 0 < y_size)
    (h : piece_at r1 c1 x_size y_size = piece_at r2 c2 x_size y_size) :
    r1 = r2 ∧ c1 = c2 := by
  have h1 : (r1, c1) ∈ piece_at r2 c2 x_size y_size := by
    rw [← h]; exact anchor_mem_piece_at r1 c1 x_size y_size hx hy
  have h2 : (r2, c2) ∈ piece_at r1 c1 x_size y_size := by
    rw [h]; exact anchor_mem_piece_at r2 c2 x_size y_size hx hy
  rw [mem_piece_at] at h1 h2
  obtain ⟨i1, j1, _, _, e1⟩ := h1
  obtain ⟨i2, j2, _, _, e2⟩ := h2
  rw [Prod.ext_iff] at e1 e2
  simp only at e1 e2
  omega

lemma mem_get_battleship_type_pieces (n m : ℕ) (d : ℕ × ℕ) (P : Piece) :
    P ∈ get_battleship_type_pieces n m d ↔
      ∃ r c : ℕ, r < n + 1 - d.1 ∧ c < m + 1 - d.2 ∧
        P = piece_at (r : ℤ) (c : ℤ) d.1 d.2 := by
  simp only [get_battleship_type_pieces, Finset.mem_image, Finset.mem_product,
    Finset.mem_range]
  constructor
  · rintro ⟨⟨r, c⟩, ⟨hr, hc⟩, h⟩
    exact ⟨r, c, hr, hc, h.symm⟩
  · rintro ⟨r, c, hr, hc, h⟩
    exact ⟨⟨r, c⟩, ⟨hr, hc⟩, h.symm⟩

lemma get_battleship_type_pieces_in_bounds (n m : ℕ) (d : ℕ × ℕ) (P : Piece)
    (hP : P ∈ get_battleship_type_pieces n m d) :
    ∀ a ∈ P, 0 ≤ a.1 ∧ a.1 < (n : ℤ) ∧ 0 ≤ a.2 ∧ a.2 < (m : ℤ) := by
  rw [mem_get_battleship_type_pieces] at hP
  obtain ⟨r, c, hr, hc, rfl⟩ := hP
  intro a ha
  rw [mem_piece_at] at ha
  obtain ⟨i, j, hi, hj, rfl⟩ := ha
  simp only
  omega

lemma generate_battleship_locations_cases (n m : ℕ) (t : ShipType) (P : Piece)
    (hP : P ∈ generate_battleship_locations n m t) :
    P ∈ get_battleship_type_pieces n m (BATTLESHIPS t) ∨
      P ∈ get_battleship_type_pieces n m ((BATTLESHIPS t).2, (BATTLESHIPS t).1) := by
  unfold generate_battleship_locations at hP
  by_cases hd : (BATTLESHIPS t).1 ≠ (BATTLESHIPS t).2
  · rw [if_pos hd, Finset.mem_union] at hP
    exact hP
  · rw [if_neg hd] at hP
    exact Or.inl hP

lemma initial_in_bounds (n m : ℕ) (t : ShipType) (P : Piece)
    (hP : P ∈ generate_battleship_locations n m t) :
    ∀ a ∈ P, 0 ≤ a.1 ∧ a.1 < (n : ℤ) ∧ 0 ≤ a.2 ∧ a.2 < (m : ℤ) := by
  rcases generate_battleship_locations_cases n m t P hP with h | h
  · exact get_battleship_type_pieces_in_bounds n m _ P h
  · exact get_battleship_type_pieces_in_bounds n m _ P h

lemma initial_mem_cache (n m : ℕ) (t : ShipType) (P : Piece)
    (hP : P ∈ generate_battleship_locations n m t) :
    P ∈ buffered_cache_keys n m :=
  Finset.mem_biUnion.mpr ⟨t, Finset.mem_univ t, hP⟩

/-! ### The buffer footprint -/

lemma mem_generate_buffered_piece (n m : ℕ) (piece : Piece) (a : Cell) :
    a ∈ generate_buffered_piece n m piece ↔
      (0 ≤ a.1 ∧ a.1 < (n : ℤ) ∧ 0 ≤ a.2 ∧ a.2 < (m : ℤ)) ∧
        ∃ b ∈ piece, cheb a b ≤ 1 := by
  simp only [generate_buffered_piece, Finset.mem_biUnion, Finset.mem_image,
    Finset.mem_filter, Finset.mem_product, deltas, Finset.mem_insert,
    Finset.mem_singleton]
  constructor
  · rintro ⟨b, hb, ⟨d1, d2⟩, ⟨⟨hd1, hd2⟩, hbnd⟩, h⟩
    subst h
    refine ⟨⟨hbnd.1, hbnd.2.1, hbnd.2.2.1, hbnd.2.2.2⟩, b, hb, ?_⟩
    simp only [cheb]
    omega
  · rintro ⟨hbnd, b, hb, hcheb⟩
    refine ⟨b, hb, (a.1 - b.1, a.2 - b.2), ⟨⟨?_, ?_⟩, ?_⟩, ?_⟩
    · simp only [cheb] at hcheb
      omega
    · simp only [cheb] at hcheb
      omega
    · simp only
      constructor
      · omega
      refine ⟨?_, ?_, ?_⟩ <;> omega
    · simp only
      rw [Prod.ext_iff]
      constructor <;> simp

lemma cheb_comm (a b : Cell) : cheb a b = cheb b a := by
  simp only [cheb]
  omega

lemma separated_symm : Symmetric Separated := by
  intro A B h b hb a ha
  rw [cheb_comm]
  exact h a ha b hb

lemma inter_buffer_empty_iff_separated (n m : ℕ) (P Q : Piece)
    (hP : ∀ a ∈ P, 0 ≤ a.1 ∧ a.1 < (n : ℤ) ∧ 0 ≤ a.2 ∧ a.2 < (m : ℤ)) :
    P ∩ generate_buffered_piece n m Q = ∅ ↔ Separated P Q := by
  rw [Finset.eq_empty_iff_forall_not_mem]
  constructor
  · intro h a ha b hb
    by_contra hlt
    have hmem : a ∈ generate_buffered_piece n m Q := by
      rw [mem_generate_buffered_piece]
      exact ⟨hP a ha, b, hb, by omega⟩
    exact h a (Finset.mem_inter.mpr ⟨ha, hmem⟩)
  · intro h a ha
    rw [Finset.mem_inter, mem_generate_buffered_piece] at ha
    obtain ⟨haP, _, b, hb, hcheb⟩ := ha
    have := h a haP b hb
    omega

/-! ### Inversion lemmas for `place_battleship` -/

lemma place_of_empty (bf : Battlefield) (t : ShipType)
    (choose : Finset Piece → Piece) (h : bf.free_battleship_pieces t = ∅) :
    place_battleship bf t choose = some (none, bf) := by
  simp [place_battleship, h]

lemma place_choice_congr (bf : Battlefield) (t : ShipType)
    (ch1 ch2 : Finset Piece → Piece)
    (h : ch1 (bf.free_battleship_pieces t) = ch2 (bf.free_battleship_pieces t)) :
    place_battleship bf t ch1 = place_battleship bf t ch2 := by
  unfold place_battleship
  rw [h]

lemma place_success_inv (bf bf' : Battlefield) (t : ShipType)
    (choose : Finset Piece → Piece) (p : Piece)
    (h : place_battleship bf t choose = some (some p, bf')) :
    bf.free_battleship_pieces t ≠ ∅ ∧
    p = choose (bf.free_battleship_pieces t) ∧
    p ∈ bf.buffered_keys ∧
    bf'.n = bf.n ∧ bf'.m = bf.m ∧
    bf'.buffered_keys = bf.buffered_keys ∧
    (∀ t', bf'.free_battleship_pieces t' =
      (bf.free_battleship_pieces t').filter
        (fun fp => fp ∩ generate_buffered_piece bf.n bf.m p = ∅)) ∧
    (∀ pos, bf'.board pos = if pos ∈ p then some (symbol t) else bf.board pos) := by
  by_cases hpool : bf.free_battleship_pieces t = ∅
  · rw [place_of_empty bf t choose hpool] at h
    simp at h
  · unfold place_battleship at h
    rw [if_neg hpool] at h
    unfold remove_overlapping_free_locations at h
    by_cases hkey :
        choose (bf.free_battleship_pieces t) ∈
          (place_in_board bf (choose (bf.free_battleship_pieces t)) (symbol t)).buffered_keys
    · rw [if_pos hkey] at h
      simp only [Option.some.injEq, Prod.mk.injEq] at h
      obtain ⟨hp, hbf⟩ := h
      have hp' : p = choose (bf.free_battleship_pieces t) := by
        cases hp; rfl
      subst hp'
      subst hbf
      refine ⟨hpool, rfl, hkey, rfl, rfl, rfl, fun t' => rfl, fun pos => rfl⟩
    · rw [if_neg hkey] at h
      simp at h

/-! ### The reachable-state invariant -/

lemma exec_inv (bf : Battlefield) (L : List Piece) (h : Exec bf L) :
    EngineInv bf L := by
  induction h with
  | init n m =>
    refine ⟨rfl, fun t => ?_, List.Pairwise.nil⟩
    simp only [List.not_mem_nil, false_implies, implies_true, Finset.filter_true_of_mem]
    rfl
  | step bf L t choose p bf' _ hchoice hplace ih =>
    obtain ⟨ikeys, ipools, ipair⟩ := ih
    obtain ⟨hpool, hp, hkey, hn, hm, hkeys, hfree, hboard⟩ :=
      place_success_inv bf bf' t choose p hplace
    have hpmem : p ∈ bf.free_battleship_pieces t := by
      rw [hp]; exact hchoice
    have hpinit : p ∈ generate_battleship_locations bf.n bf.m t ∧
        ∀ q ∈ L, p ∩ generate_buffered_piece bf.n bf.m q = ∅ := by
      have := ipools t ▸ hpmem
      exact Finset.mem_filter.mp this
    have hpbounds := initial_in_bounds bf.n bf.m t p hpinit.1
    refine ⟨?_, ?_, ?_⟩
    · rw [hkeys, hn, hm, ikeys]
    · intro t'
      rw [hfree t', ipools t', Finset.filter_filter, hn, hm]
      refine Finset.filter_congr ?_
      intro fp _
      simp only [List.mem_cons, eq_iff_iff]
      constructor
      · rintro ⟨hL, hp0⟩ q hq
        rcases hq with hq | hq
        · rw [hq]; exact hp0
        · exact hL q hq
      · intro hall
        exact ⟨fun q hq => hall q (Or.inr hq), hall p (Or.inl rfl)⟩
    · rw [List.pairwise_cons]
      refine ⟨fun q hq => ?_, ipair⟩
      exact (inter_buffer_empty_iff_separated bf.n bf.m p q hpbounds).mp
        (hpinit.2 q hq)

/-! ### A concrete run on the 1 × 1 grid -/

lemma place_submarine_one_one :
    place_battleship (Battlefield.init 1 1) ShipType.submarine const_choice =
      some (some origin_piece, after_first_submarine) := by
  rfl

lemma exec_after_first : Exec after_first_submarine [origin_piece] :=
  Exec.step _ _ _ _ _ _ (Exec.init 1 1) (by decide) place_submarine_one_one

lemma place_sub_three_one :
    place_battleship (Battlefield.init 3 1) ShipType.submarine const_choice =
      some (some origin_piece, after_sub_three_one) := by
  rfl

lemma place_second_sub_three_one :
    place_battleship after_sub_three_one ShipType.submarine far_choice =
      some (some far_piece, after_two_subs_three_one) := by
  rfl

lemma exec_two_subs : Exec after_two_subs_three_one [far_piece, origin_piece] :=
  Exec.step _ _ _ _ _ _
    (Exec.step _ _ _ _ _ _ (Exec.init 3 1) (by decide) place_sub_three_one)
    (by decide) place_second_sub_three_one

/-! ### Counting the initial candidate pools -/

lemma card_get_battleship_type_pieces (n m : ℕ) (d : ℕ × ℕ)
    (h1 : 0 < d.1) (h2 : 0 < d.2) :
    (get_battleship_type_pieces n m d).card = (n + 1 - d.1) * (m + 1 - d.2) := by
  rw [get_battleship_type_pieces, Finset.card_image_of_injOn, Finset.card_product,
    Finset.card_range, Finset.card_range]
  intro a _ b _ hab
  have h := piece_at_inj (a.1 : ℤ) (a.2 : ℤ) (b.1 : ℤ) (b.2 : ℤ) d.1 d.2 h1 h2 hab
  have e1 : a.1 = b.1 := by exact_mod_cast h.1
  have e2 : a.2 = b.2 := by exact_mod_cast h.2
  exact Prod.ext e1 e2

lemma disjoint_orientations (n m L : ℕ) (hL : 2 ≤ L) :
    Disjoint (get_battleship_type_pieces n m (L, 1))
      (get_battleship_type_pieces n m (1, L)) := by
  rw [Finset.disjoint_left]
  intro P hA hB
  rw [mem_get_battleship_type_pieces] at hA hB
  obtain ⟨r, c, hr, hc, rfl⟩ := hA
  obtain ⟨r', c', hr', hc', hEq⟩ := hB
  have m1 : ((r : ℤ), (c : ℤ)) ∈ piece_at (r : ℤ) (c : ℤ) (L, 1).1 (L, 1).2 :=
    anchor_mem_piece_at _ _ _ _ (by simp; omega) (by simp)
  have m2 : ((r : ℤ) + ((L - 1 : ℕ) : ℤ), (c : ℤ)) ∈
      piece_at (r : ℤ) (c : ℤ) (L, 1).1 (L, 1).2 := by
    rw [mem_piece_at]
    exact ⟨L - 1, 0, by simp; omega, by simp, by simp⟩
  rw [hEq, mem_piece_at] at m1 m2
  obtain ⟨i1, j1, hi1, hj1, e1⟩ := m1
  obtain ⟨i2, j2, hi2, hj2, e2⟩ := m2
  rw [Prod.ext_iff] at e1 e2
  simp only at e1 e2 hi1 hi2
  omega

lemma card_union_orientations (n m L : ℕ) (hL : 2 ≤ L) (hn : L ≤ n) (hm : L ≤ m) :
    (get_battleship_type_pieces n m (L, 1) ∪
      get_battleship_type_pieces n m (1, L)).card =
      n * (m - L + 1) + m * (n - L + 1) := by
  rw [Finset.card_union_of_disjoint (disjoint_orientations n m L hL)]
  rw [card_get_battleship_type_pieces n m (L, 1) (by simp; omega) (by simp)]
  rw [card_get_battleship_type_pieces n m (1, L) (by simp) (by simp; omega)]
  simp only
  have e1 : m + 1 - 1 = m := by omega
  have e2 : n + 1 - 1 = n := by omega
  have e3 : m + 1 - L = m - L + 1 := by omega
  have e4 : n + 1 - L = n - L + 1 := by omega
  rw [e1, e2, e3, e4]
  generalize n - L + 1 = x
  generalize m - L + 1 = y
  ring

/-! ### Small auxiliary lemmas -/

lemma generate_battleship_locations_def (n m : ℕ) (t : ShipType) :
    generate_battleship_locations n m t =
      if (BATTLESHIPS t).1 ≠ (BATTLESHIPS t).2 then
        get_battleship_type_pieces n m (BATTLESHIPS t) ∪
          get_battleship_type_pieces n m ((BATTLESHIPS t).2, (BATTLESHIPS t).1)
      else
        get_battleship_type_pieces n m (BATTLESHIPS t) := rfl

lemma get_pieces_empty_of_lt (n m : ℕ) (d : ℕ × ℕ) (h : n < d.1 ∨ m < d.2) :
    get_battleship_type_pieces n m d = ∅ := by
  rw [get_battleship_type_pieces]
  rcases h with h | h
  · have e : n + 1 - d.1 = 0 := by omega
    rw [e]
    simp
  · have e : m + 1 - d.2 = 0 := by omega
    rw [e]
    simp

lemma place_in_board_keys (bf : Battlefield) (piece : Piece) (s : Char) :
    (place_in_board bf piece s).buffered_keys = bf.buffered_keys := rfl

/-! ### The claims -/

/-- C1: after any sequence of successful `place` calls, every two distinct
committed footprints are such that every cell of one is at Chebyshev
distance at least 2 from every cell of the other (committed ships never
overlap and never touch, even diagonally). -/
theorem committed_footprints_separated (bf : Battlefield) (L : List Piece)
    (hE : Exec bf L) :
    ∀ A ∈ L, ∀ B ∈ L, A ≠ B → ∀ a ∈ A, ∀ b ∈ B, 2 ≤ cheb a b := by
  obtain ⟨-, -, hpair⟩ := exec_inv bf L hE
  intro A hA B hB hAB
  exact List.Pairwise.forall separated_symm hpair hA hB hAB

/-- Witness for C1: after committing two submarines on a 3 × 1 grid, the
cells `(2, 0)` and `(0, 0)` of the two distinct committed footprints are
at Chebyshev distance at least 2. -/
theorem committed_footprints_separated_witness :
    2 ≤ cheb ((2 : ℤ), (0 : ℤ)) ((0 : ℤ), (0 : ℤ)) :=
  committed_footprints_separated after_two_subs_three_one
    [far_piece, origin_piece] exec_two_subs
    far_piece (by decide) origin_piece (by decide) (by decide)
    ((2 : ℤ), (0 : ℤ)) (by decide) ((0 : ℤ), (0 : ℤ)) (by decide)

/-- C2: a successful placement of `p` replaces every pool (including the
placed kind's own) by its previous value minus exactly the footprints
meeting the buffer of `p`, and afterwards a footprint is in a pool iff it
is a geometrically valid footprint of that kind whose every cell is at
Chebyshev distance at least 2 from every cell of every committed
footprint: the pool is the complete and exact set of still-legal
placements. -/
theorem pool_after_place_exact (bf bf' : Battlefield) (L : List Piece)
    (t : ShipType) (choose : Finset Piece → Piece) (p : Piece)
    (hE : Exec bf L)
    (hchoice : choose (bf.free_battleship_pieces t) ∈ bf.free_battleship_pieces t)
    (hplace : place_battleship bf t choose = some (some p, bf')) :
    (∀ t', bf'.free_battleship_pieces t' =
      (bf.free_battleship_pieces t').filter
        (fun fp => fp ∩ generate_buffered_piece bf.n bf.m p = ∅)) ∧
    (∀ t' fp, fp ∈ bf'.free_battleship_pieces t' ↔
      (fp ∈ generate_battleship_locations bf.n bf.m t' ∧
        ∀ q ∈ p :: L, ∀ a ∈ fp, ∀ b ∈ q, 2 ≤ cheb a b)) := by
  have hE' : Exec bf' (p :: L) := Exec.step bf L t choose p bf' hE hchoice hplace
  obtain ⟨-, ipools, -⟩ := exec_inv bf' (p :: L) hE'
  obtain ⟨-, -, -, hn, hm, -, hfree, -⟩ := place_success_inv bf bf' t choose p hplace
  refine ⟨fun t' => hfree t', fun t' fp => ?_⟩
  rw [ipools t', Finset.mem_filter, hn, hm]
  constructor
  · rintro ⟨hinit, hall⟩
    refine ⟨hinit, fun q hq => ?_⟩
    have hbounds := initial_in_bounds bf.n bf.m t' fp hinit
    exact (inter_buffer_empty_iff_separated bf.n bf.m fp q hbounds).mp (hall q hq)
  · rintro ⟨hinit, hall⟩
    refine ⟨hinit, fun q hq => ?_⟩
    have hbounds := initial_in_bounds bf.n bf.m t' fp hinit
    exact (inter_buffer_empty_iff_separated bf.n bf.m fp q hbounds).mpr (hall q hq)

/-- Witness for C2: the pruning equation and the exactness
characterisation after the concrete 1 × 1 submarine placement. -/
theorem pool_after_place_exact_witness :
    (∀ t', after_first_submarine.free_battleship_pieces t' =
      ((Battlefield.init 1 1).free_battleship_pieces t').filter
        (fun fp => fp ∩ generate_buffered_piece (Battlefield.init 1 1).n
            (Battlefield.init 1 1).m origin_piece = ∅)) ∧
    (∀ t' fp, fp ∈ after_first_submarine.free_battleship_pieces t' ↔
      (fp ∈ generate_battleship_locations (Battlefield.init 1 1).n
          (Battlefield.init 1 1).m t' ∧
        ∀ q ∈ [origin_piece], ∀ a ∈ fp, ∀ b ∈ q, 2 ≤ cheb a b)) :=
  pool_after_place_exact (Battlefield.init 1 1) after_first_submarine []
    ShipType.submarine const_choice origin_piece (Exec.init 1 1) (by decide)
    place_submarine_one_one

/-- C3: for `n, m ≥ L` the initial candidate pool of a kind of length `L`
has exactly `n*(m-L+1) + m*(n-L+1)` footprints when `L > 1`, and exactly
`n*m` when `L = 1` (the two submarine orientations coincide). -/
theorem initial_pool_card (n m : ℕ) (t : ShipType)
    (hn : (BATTLESHIPS t).1 ≤ n) (hm : (BATTLESHIPS t).1 ≤ m) :
    ((Battlefield.init n m).free_battleship_pieces t).card =
      if (BATTLESHIPS t).1 = 1 then n * m
      else n * (m - (BATTLESHIPS t).1 + 1) + m * (n - (BATTLESHIPS t).1 + 1) := by
  cases t with
  | submarine =>
    rw [show (Battlefield.init n m).free_battleship_pieces ShipType.submarine =
      get_battleship_type_pieces n m (1, 1) from rfl]
    rw [if_pos (by decide)]
    rw [card_get_battleship_type_pieces n m (1, 1) (by decide) (by decide)]
    simp
  | destroyer =>
    rw [show (Battlefield.init n m).free_battleship_pieces ShipType.destroyer =
      get_battleship_type_pieces n m (2, 1) ∪ get_battleship_type_pieces n m (1, 2)
      from rfl]
    rw [if_neg (by decide)]
    exact card_union_orientations n m 2 (by decide) hn hm
  | cruiser =>
    rw [show (Battlefield.init n m).free_battleship_pieces ShipType.cruiser =
      get_battleship_type_pieces n m (3, 1) ∪ get_battleship_type_pieces n m (1, 3)
      from rfl]
    rw [if_neg (by decide)]
    exact card_union_orientations n m 3 (by decide) hn hm
  | carrier =>
    rw [show (Battlefield.init n m).free_battleship_pieces ShipType.carrier =
      get_battleship_type_pieces n m (4, 1) ∪ get_battleship_type_pieces n m (1, 4)
      from rfl]
    rw [if_neg (by decide)]
    exact card_union_orientations n m 4 (by decide) hn hm

/-- Witness for C3: the destroyer pool on a 2 × 2 grid, whose size the
formula gives as 4, checked against direct evaluation. -/
theorem initial_pool_card_witness :
    ((Battlefield.init 2 2).free_battleship_pieces ShipType.destroyer).card =
      (if (BATTLESHIPS ShipType.destroyer).1 = 1 then 2 * 2
       else 2 * (2 - (BATTLESHIPS ShipType.destroyer).1 + 1) +
         2 * (2 - (BATTLESHIPS ShipType.destroyer).1 + 1)) ∧
    ((Battlefield.init 2 2).free_battleship_pieces ShipType.destroyer).card = 4 :=
  ⟨initial_pool_card 2 2 ShipType.destroyer (by decide) (by decide), by decide⟩

/-- C4: the buffer footprint of a candidate footprint is exactly the set
of in-bounds cells at Chebyshev distance at most 1 from some cell of it;
buffering clips at the board edge rather than wrapping or erroring. -/
theorem buffered_piece_spec (n m : ℕ) (t : ShipType) (F : Piece)
    (_hF : F ∈ generate_battleship_locations n m t) (pos : Cell) :
    pos ∈ generate_buffered_piece n m F ↔
      ((0 ≤ pos.1 ∧ pos.1 < (n : ℤ) ∧ 0 ≤ pos.2 ∧ pos.2 < (m : ℤ)) ∧
        ∃ c ∈ F, cheb pos c ≤ 1) :=
  mem_generate_buffered_piece n m F pos

/-- Witness for C4: the submarine footprint at the origin of a 2 × 2 grid
and the cell (1, 1). -/
theorem buffered_piece_spec_witness :
    origin_piece ∈ generate_battleship_locations 2 2 ShipType.submarine ∧
    (((1 : ℤ), (1 : ℤ)) ∈ generate_buffered_piece 2 2 origin_piece ↔
      ((0 ≤ (1 : ℤ) ∧ (1 : ℤ) < ((2 : ℕ) : ℤ) ∧
          0 ≤ (1 : ℤ) ∧ (1 : ℤ) < ((2 : ℕ) : ℤ)) ∧
        ∃ c ∈ origin_piece, cheb ((1 : ℤ), (1 : ℤ)) c ≤ 1)) :=
  ⟨by decide, buffered_piece_spec 2 2 ShipType.submarine origin_piece (by decide)
    ((1 : ℤ), (1 : ℤ))⟩

/-- C5: after a successful placement returning footprint `P`, every board
cell in `P` holds the kind's symbol and every other board cell holds
exactly its previous value. -/
theorem place_board_frame (bf bf' : Battlefield) (t : ShipType)
    (choose : Finset Piece → Piece) (p : Piece)
    (h : place_battleship bf t choose = some (some p, bf')) :
    (∀ pos ∈ p, bf'.board pos = some (symbol t)) ∧
    (∀ pos, pos ∉ p → bf'.board pos = bf.board pos) := by
  obtain ⟨-, -, -, -, -, -, -, hboard⟩ := place_success_inv bf bf' t choose p h
  constructor
  · intro pos hpos
    rw [hboard pos, if_pos hpos]
  · intro pos hpos
    rw [hboard pos, if_neg hpos]

/-- Witness for C5: the concrete 1 × 1 submarine placement. -/
theorem place_board_frame_witness :
    (∀ pos ∈ origin_piece,
      after_first_submarine.board pos = some (symbol ShipType.submarine)) ∧
    (∀ pos, pos ∉ origin_piece →
      after_first_submarine.board pos = (Battlefield.init 1 1).board pos) :=
  place_board_frame (Battlefield.init 1 1) after_first_submarine
    ShipType.submarine const_choice origin_piece place_submarine_one_one

/-- C6: when the requested kind's pool is empty, `place_battleship`
returns the distinguishable "no space" value (Python `None`, modelled as
the inner `none`) rather than raising, and leaves the engine state as it
was, so further placement calls remain permitted. -/
theorem place_empty_pool_no_space (bf : Battlefield) (t : ShipType)
    (choose : Finset Piece → Piece) (h : bf.free_battleship_pieces t = ∅) :
    place_battleship bf t choose = some (none, bf) :=
  place_of_empty bf t choose h

/-- Witness for C6: a carrier on the 1 × 1 grid. -/
theorem place_empty_pool_no_space_witness :
    place_battleship (Battlefield.init 1 1) ShipType.carrier const_choice =
      some (none, Battlefield.init 1 1) :=
  place_empty_pool_no_space (Battlefield.init 1 1) ShipType.carrier const_choice
    (by decide)

/-- C7, counterexample: `Battlefield.__init__` performs no validation, so
construction with 0 rows does not fail; it yields a working engine whose
pools are empty and whose placement calls return the normal "no space"
value. -/
theorem construction_zero_rows_no_error :
    (Battlefield.init 0 5).free_battleship_pieces ShipType.submarine = ∅ ∧
    place_battleship (Battlefield.init 0 5) ShipType.submarine const_choice =
      some (none, Battlefield.init 0 5) :=
  ⟨by decide, place_of_empty _ _ _ (by decide)⟩

/-- C7, amended: construction never fails; for any dimensions (including
zero) it succeeds, and when the board is smaller than a kind's length in
both directions that kind's candidate pool is empty from the start, a
placement call for it returning the "no space" value rather than an
error. -/
theorem construction_total_small_board (n m : ℕ) (t : ShipType)
    (choose : Finset Piece → Piece)
    (h1 : n < (BATTLESHIPS t).1) (h2 : m < (BATTLESHIPS t).1) :
    (Battlefield.init n m).free_battleship_pieces t = ∅ ∧
    place_battleship (Battlefield.init n m) t choose =
      some (none, Battlefield.init n m) := by
  have hempty : (Battlefield.init n m).free_battleship_pieces t = ∅ := by
    rw [show (Battlefield.init n m).free_battleship_pieces t =
      generate_battleship_locations n m t from rfl]
    rw [generate_battleship_locations_def]
    by_cases hd : (BATTLESHIPS t).1 ≠ (BATTLESHIPS t).2
    · rw [if_pos hd,
        get_pieces_empty_of_lt n m (BATTLESHIPS t) (Or.inl h1),
        get_pieces_empty_of_lt n m ((BATTLESHIPS t).2, (BATTLESHIPS t).1)
          (Or.inr (show m < ((BATTLESHIPS t).2, (BATTLESHIPS t).1).2 from h2))]
      simp
    · rw [if_neg hd]
      exact get_pieces_empty_of_lt n m (BATTLESHIPS t) (Or.inl h1)
  exact ⟨hempty, place_of_empty _ _ _ hempty⟩

/-- Witness for C7's amended statement: a carrier on a 0 × 0 grid. -/
theorem construction_total_small_board_witness :
    (Battlefield.init 0 0).free_battleship_pieces ShipType.carrier = ∅ ∧
    place_battleship (Battlefield.init 0 0) ShipType.carrier const_choice =
      some (none, Battlefield.init 0 0) :=
  construction_total_small_board 0 0 ShipType.carrier const_choice
    (by decide) (by decide)

/-- C8: on a 1 × 1 grid, a carrier placement returns the "no space"
value; a submarine placement succeeds exactly once, with footprint
`{(0, 0)}`, and a second submarine call on the resulting engine returns
the "no space" value. -/
theorem one_by_one_scenario (choose : Finset Piece → Piece)
    (hchoice :
      choose ((Battlefield.init 1 1).free_battleship_pieces ShipType.submarine) ∈
        (Battlefield.init 1 1).free_battleship_pieces ShipType.submarine) :
    (∀ ch, place_battleship (Battlefield.init 1 1) ShipType.carrier ch =
      some (none, Battlefield.init 1 1)) ∧
    (∃ bf', place_battleship (Battlefield.init 1 1) ShipType.submarine choose =
        some (some origin_piece, bf') ∧
      ∀ ch, place_battleship bf' ShipType.submarine ch = some (none, bf')) := by
  constructor
  · intro ch
    exact place_of_empty _ _ _ (by decide)
  · have hc :
        choose ((Battlefield.init 1 1).free_battleship_pieces ShipType.submarine) =
          origin_piece := by
      have hpool : (Battlefield.init 1 1).free_battleship_pieces ShipType.submarine =
          {origin_piece} := by decide
      rw [hpool] at hchoice
      exact Finset.mem_singleton.mp hchoice
    refine ⟨after_first_submarine, ?_, ?_⟩
    · rw [place_choice_congr (Battlefield.init 1 1) ShipType.submarine choose
        const_choice (by rw [hc]; rfl)]
      exact place_submarine_one_one
    · intro ch
      exact place_of_empty _ _ _ (by decide)

/-- Witness for C8: the concrete choice function. -/
theorem one_by_one_scenario_witness :
    (const_choice ((Battlefield.init 1 1).free_battleship_pieces ShipType.submarine) ∈
      (Battlefield.init 1 1).free_battleship_pieces ShipType.submarine) ∧
    ((∀ ch, place_battleship (Battlefield.init 1 1) ShipType.carrier ch =
      some (none, Battlefield.init 1 1)) ∧
    (∃ bf', place_battleship (Battlefield.init 1 1) ShipType.submarine const_choice =
        some (some origin_piece, bf') ∧
      ∀ ch, place_battleship bf' ShipType.submarine ch = some (none, bf'))) :=
  ⟨by decide, one_by_one_scenario const_choice (by decide)⟩

/-- C9: a `place_battleship` call that returns the "no space" value leaves
the engine state entirely unchanged: the whole record, hence the board and
every kind's candidate pool, is exactly as before the call. -/
theorem place_no_space_state_unchanged (bf bf' : Battlefield) (t : ShipType)
    (choose : Finset Piece → Piece)
    (h : place_battleship bf t choose = some (none, bf')) :
    bf' = bf ∧
    (∀ t', bf'.free_battleship_pieces t' = bf.free_battleship_pieces t') ∧
    (∀ pos, bf'.board pos = bf.board pos) := by
  have hbf : bf' = bf := by
    by_cases hpool : bf.free_battleship_pieces t = ∅
    · rw [place_of_empty bf t choose hpool] at h
      simp only [Option.some.injEq, Prod.mk.injEq, true_and] at h
      exact h.symm
    · unfold place_battleship at h
      rw [if_neg hpool] at h
      rcases hro : remove_overlapping_free_locations
          (place_in_board bf (choose (bf.free_battleship_pieces t)) (symbol t))
          (choose (bf.free_battleship_pieces t)) with _ | bf2
      · rw [hro] at h
        simp at h
      · rw [hro] at h
        simp at h
  exact ⟨hbf, fun t' => by rw [hbf], fun pos => by rw [hbf]⟩

/-- Witness for C9: the failed carrier placement on the 1 × 1 grid. -/
theorem place_no_space_state_unchanged_witness :
    Battlefield.init 1 1 = Battlefield.init 1 1 ∧
    (∀ t', (Battlefield.init 1 1).free_battleship_pieces t' =
      (Battlefield.init 1 1).free_battleship_pieces t') ∧
    (∀ pos, (Battlefield.init 1 1).board pos = (Battlefield.init 1 1).board pos) :=
  place_no_space_state_unchanged (Battlefield.init 1 1) (Battlefield.init 1 1)
    ShipType.carrier const_choice (place_of_empty _ _ _ (by decide))

/-- C10: in every reachable state every footprint still in any pool is a
key of the construction-time buffer cache, so the cache lookup performed
while pruning a just-placed footprint is total: a placement call with a
valid random choice never takes the exceptional path. -/
theorem pools_within_cache (bf : Battlefield) (L : List Piece) (hE : Exec bf L) :
    (∀ t, ∀ fp ∈ bf.free_battleship_pieces t, fp ∈ bf.buffered_keys) ∧
    (∀ t choose,
      choose (bf.free_battleship_pieces t) ∈ bf.free_battleship_pieces t →
        place_battleship bf t choose ≠ none) := by
  obtain ⟨ikeys, ipools, -⟩ := exec_inv bf L hE
  have hmem : ∀ t, ∀ fp ∈ bf.free_battleship_pieces t, fp ∈ bf.buffered_keys := by
    intro t fp hfp
    rw [ipools t] at hfp
    rw [ikeys]
    exact initial_mem_cache bf.n bf.m t fp (Finset.mem_filter.mp hfp).1
  refine ⟨hmem, ?_⟩
  intro t choose hchoice
  have hpool : bf.free_battleship_pieces t ≠ ∅ := Finset.ne_empty_of_mem hchoice
  have hkey : choose (bf.free_battleship_pieces t) ∈ bf.buffered_keys :=
    hmem t _ hchoice
  unfold place_battleship
  rw [if_neg hpool]
  unfold remove_overlapping_free_locations
  rw [place_in_board_keys, if_pos hkey]
  simp

/-- Witness for C10: the initial 1 × 1 engine. -/
theorem pools_within_cache_witness :
    (origin_piece ∈ (Battlefield.init 1 1).free_battleship_pieces ShipType.submarine →
      origin_piece ∈ (Battlefield.init 1 1).buffered_keys) ∧
    place_battleship (Battlefield.init 1 1) ShipType.submarine const_choice ≠ none :=
  ⟨fun h => (pools_within_cache (Battlefield.init 1 1) [] (Exec.init 1 1)).1
      ShipType.submarine origin_piece h,
    (pools_within_cache (Battlefield.init 1 1) [] (Exec.init 1 1)).2
      ShipType.submarine const_choice (by decide)⟩
